import Mathlib

set_option maxRecDepth 8000

/-!
Verification development for the session-ingestion scripts
(`import_all_sessions.py`, `memory_search.py`, `export_chat.py`,
`import_to_memory.py`).

The Python code is shallowly embedded: text is modelled as `String`
(Lean strings are lists of unicode code points, matching Python `str`
indexing/length semantics), JSONL records as an inductive value type
covering exactly the shapes the extractor probes, and the SQLite store
as lists of rows.  Python `re.sub` with the concrete patterns of the
source is implemented by a left-to-right leftmost-match scanner
(`pySub`) plus one hand-rolled matcher per pattern; the matchers follow
the greedy/backtracking semantics of each concrete regex (analysed
pattern by pattern — each of the source's patterns is deterministic
after maximal-munch, see the comments).  `\s`, `\w` and case folding are
modelled over ASCII, which is exact for ASCII text.
-/

namespace MemTools

/-! ## Character helpers (ASCII models of Python character classes) -/

/-- Python `\s` / `str.strip()` whitespace, ASCII part: space, \t, \n, \r, \x0b, \x0c. -/
def pyWsChar (c : Char) : Bool :=
  c = ' ' || c = '\t' || c = '\n' || c = '\r' || c = Char.ofNat 11 || c = Char.ofNat 12

def asciiLower (c : Char) : Bool := 'a' ≤ c && c ≤ 'z'

def asciiUpper (c : Char) : Bool := 'A' ≤ c && c ≤ 'Z'

def asciiAlpha (c : Char) : Bool := asciiLower c || asciiUpper c

def asciiDigit (c : Char) : Bool := '0' ≤ c && c ≤ '9'

/-- `[a-zA-Z0-9]`. -/
def asciiAlnum (c : Char) : Bool := asciiAlpha c || asciiDigit c

/-- Python `\w` (ASCII): `[a-zA-Z0-9_]`. -/
def wordChar (c : Char) : Bool := asciiAlnum c || c = '_'

/-- ASCII lower-casing of one character (Python `str.lower`, SQLite LIKE folding). -/
def foldChar (c : Char) : Char :=
  if asciiUpper c then Char.ofNat (c.toNat + 32) else c

def toUpperChar (c : Char) : Char :=
  if asciiLower c then Char.ofNat (c.toNat - 32) else c

def dquoteChar : Char := Char.ofNat 34

def squoteChar : Char := Char.ofNat 39

/-! ## String helpers (Python string operations over `String.data`) -/

def pyStripList (l : List Char) : List Char :=
  ((l.dropWhile pyWsChar).reverse.dropWhile pyWsChar).reverse

/-- Python `str.strip()`. -/
def pyStrip (s : String) : String := String.mk (pyStripList s.data)

/-- Python `str.lower()` (ASCII). -/
def pyLower (s : String) : String := String.mk (s.data.map foldChar)

def pyTitleAux : Bool → List Char → List Char
  | _, [] => []
  | prevAlpha, c :: cs =>
    (if asciiAlpha c then (if prevAlpha then foldChar c else toUpperChar c) else c)
      :: pyTitleAux (asciiAlpha c) cs

/-- Python `str.title()` (ASCII): upper-case a letter after a non-letter, lower-case the rest. -/
def pyTitle (s : String) : String := String.mk (pyTitleAux false s.data)

/-- Python slice `s[:n]` (by code points). -/
def pyTake (s : String) (n : Nat) : String := String.mk (s.data.take n)

/-- Python slice `s[n:]` (by code points). -/
def pyDrop (s : String) (n : Nat) : String := String.mk (s.data.drop n)

/-- Python `sep.join(l)`. -/
def pyJoin (sep : String) : List String → String
  | [] => ""
  | [x] => x
  | x :: xs => x ++ sep ++ pyJoin sep xs

/-- Python `s.startswith(p)`. -/
def startsWithStr (s p : String) : Bool := p.data.isPrefixOf s.data

/-- Scanner for list containment (Python `needle in hay` on strings). -/
def infixScan (needle : List Char) : List Char → Bool
  | [] => needle.isEmpty
  | c :: rest => needle.isPrefixOf (c :: rest) || infixScan needle rest

/-- Python `needle in hay` (substring test). -/
def containsSub (needle hay : String) : Bool := infixScan needle.data hay.data

/-- Fuel-driven worker for Python `str.split()` (split on whitespace runs, drop empties). -/
def splitWsAux : Nat → List Char → List String
  | 0, _ => []
  | _ + 1, [] => []
  | fuel + 1, c :: cs =>
    if pyWsChar c then splitWsAux fuel cs
    else
      let w := (c :: cs).takeWhile (fun x => !pyWsChar x)
      String.mk w :: splitWsAux fuel (List.drop (w.length - 1) cs)

/-- Python `str.split()` with no argument. -/
def splitWs (l : List Char) : List String := splitWsAux (l.length + 1) l

/-- Fuel-driven search for the first occurrence of `sep`: returns (before, after). -/
def splitOnceAux (sep : List Char) : Nat → List Char → Option (List Char × List Char)
  | 0, _ => none
  | fuel + 1, l =>
    if sep.isPrefixOf l then some ([], l.drop sep.length)
    else
      match l with
      | [] => none
      | c :: cs => (splitOnceAux sep fuel cs).map (fun p => (c :: p.1, p.2))

def splitOnce (sep l : List Char) : Option (List Char × List Char) :=
  splitOnceAux sep (l.length + 1) l

/-- Length of the maximal run of characters satisfying `p` (greedy character-class star). -/
def runLen (p : Char → Bool) (l : List Char) : Nat := (l.takeWhile p).length

/-- Consume a literal; return the remainder on success. -/
def eatLit : List Char → List Char → Option (List Char)
  | [], l => some l
  | _ :: _, [] => none
  | p :: ps, c :: cs => if c = p then eatLit ps cs else none

/-- Consume a literal case-insensitively (ASCII); the literal is given lower-case. -/
def eatLitCI : List Char → List Char → Option (List Char)
  | [], l => some l
  | _ :: _, [] => none
  | p :: ps, c :: cs => if foldChar c = p then eatLitCI ps cs else none

/-! ## `re.sub` engine

`pySubAux m fuel atStart l` scans `l` left to right.  At each position it
asks the matcher `m` for a match (passing whether the position is a line
start, for `re.MULTILINE` `^` anchors); on a match of `n` characters it
emits the replacement the matcher computed and resumes after the match,
exactly like Python's `re.sub` (our matchers never match the empty
string).  Fuel is the list length, sufficient because matches consume at
least one character. -/

def pySubAux (m : Bool → List Char → Option (Nat × List Char)) :
    Nat → Bool → List Char → List Char
  | 0, _, _ => []
  | _ + 1, _, [] => []
  | fuel + 1, atStart, c :: cs =>
    match m atStart (c :: cs) with
    | some (n, rep) =>
      let consumed := (c :: cs).take n
      rep ++ pySubAux m fuel (consumed.getLast? == some '\n') (List.drop (n - 1) cs)
    | none => c :: pySubAux m fuel (c == '\n') cs

def pySub (m : Bool → List Char → Option (Nat × List Char)) (s : String) : String :=
  String.mk (pySubAux m (s.data.length + 1) true s.data)

/-- Lift a position-independent fixed-replacement matcher. -/
def plainM (m : List Char → Option Nat) (rep : String) :
    Bool → List Char → Option (Nat × List Char) :=
  fun _ l => (m l).map (fun n => (n, rep.data))

/-! ## Sensitive-data scrubber (`SENSITIVE_PATTERNS` / `scrub_sensitive`)

One matcher per source regex; each returns the length of the match at
the head of the input, following the regex's greedy semantics (each of
these concrete patterns is deterministic: shrinking a maximal
character-class run can never make the required follower match, see the
per-pattern notes). -/

/-- `sk-ant-api\S+`. -/
def matchSkAnt (l : List Char) : Option Nat :=
  match eatLit "sk-ant-api".data l with
  | none => none
  | some rest =>
    let k := runLen (fun c => !pyWsChar c) rest
    if k = 0 then none else some (10 + k)

/-- `sk-[a-zA-Z0-9]{20,}`. -/
def matchSk (l : List Char) : Option Nat :=
  match eatLit "sk-".data l with
  | none => none
  | some rest =>
    let k := runLen asciiAlnum rest
    if 20 ≤ k then some (3 + k) else none

/-- `ghp_[a-zA-Z0-9]{36,}`. -/
def matchGhp (l : List Char) : Option Nat :=
  match eatLit "ghp_".data l with
  | none => none
  | some rest =>
    let k := runLen asciiAlnum rest
    if 36 ≤ k then some (4 + k) else none

/-- `(?i)api[_-]?key\s*[:=]\s*["\']?[\w-]{20,}`.  The optional `[_-]` is
committed when present (backtracking cannot help: without it, `key`
would have to match the separator character); the optional quote is
likewise committed (a quote is not in `[\w-]`). -/
def matchApiKey (l : List Char) : Option Nat :=
  match eatLitCI "api".data l with
  | none => none
  | some r1 =>
    let keyPart : Option (Nat × List Char) :=
      match r1 with
      | [] => none
      | c :: cs =>
        if c = '_' || c = '-' then
          match eatLitCI "key".data cs with
          | some r => some (4, r)
          | none => none
        else
          match eatLitCI "key".data r1 with
          | some r => some (3, r)
          | none => none
    match keyPart with
    | none => none
    | some (k1, r2) =>
      let w1 := runLen pyWsChar r2
      match r2.drop w1 with
      | [] => none
      | c :: cs =>
        if c = ':' || c = '=' then
          let w2 := runLen pyWsChar cs
          let r4 := cs.drop w2
          let qr : Nat × List Char :=
            match r4 with
            | [] => (0, r4)
            | c2 :: cs2 => if c2 = dquoteChar || c2 = squoteChar then (1, cs2) else (0, r4)
          let k := runLen (fun c3 => wordChar c3 || c3 = '-') qr.2
          if 20 ≤ k then some (3 + k1 + w1 + 1 + w2 + qr.1 + k) else none
        else none

/-- `(?i)password\s*[:=]\s*["\'][^"\']{8,}["\']`.  The `[^"\']{8,}` run is
maximal; the character after it is a quote or the match fails (shrinking
the run would put a non-quote where the closing quote is required). -/
def matchPassword (l : List Char) : Option Nat :=
  match eatLitCI "password".data l with
  | none => none
  | some r1 =>
    let w1 := runLen pyWsChar r1
    match r1.drop w1 with
    | [] => none
    | c :: cs =>
      if c = ':' || c = '=' then
        let w2 := runLen pyWsChar cs
        match cs.drop w2 with
        | [] => none
        | q :: qs =>
          if q = dquoteChar || q = squoteChar then
            let k := runLen (fun c2 => !(c2 = dquoteChar || c2 = squoteChar)) qs
            if 8 ≤ k then
              match qs.drop k with
              | [] => none
              | c2 :: _ =>
                if c2 = dquoteChar || c2 = squoteChar then some (8 + w1 + 1 + w2 + 1 + k + 1)
                else none
            else none
          else none
      else none

/-- `scrub_sensitive`: the five substitutions applied in source order. -/
def scrub_sensitive (text : String) : String :=
  let t1 := pySub (plainM matchSkAnt "[REDACTED_API_KEY]") text
  let t2 := pySub (plainM matchSk "[REDACTED_KEY]") t1
  let t3 := pySub (plainM matchGhp "[REDACTED_GITHUB_TOKEN]") t2
  let t4 := pySub (plainM matchApiKey "[REDACTED_API_KEY]") t3
  pySub (plainM matchPassword "[REDACTED_PASSWORD]") t4

/-! ## SQLite `LIKE`

SQLite's default `LIKE` is ASCII case-insensitive; `%` matches any
sequence, `_` any single character.  `likeTail f s` tries `f` on every
suffix of `s` (the semantics of `%`); recursion is structural on the
pattern. -/

def likeTail (f : List Char → Bool) : List Char → Bool
  | [] => f []
  | c :: s => f (c :: s) || likeTail f s

def likeM : List Char → List Char → Bool
  | [], s => s.isEmpty
  | p :: ps, s =>
    if p = '%' then likeTail (likeM ps) s
    else
      match s with
      | [] => false
      | d :: s' => if p = '_' then likeM ps s' else (foldChar p = foldChar d) && likeM ps s'

/-- `pat LIKE`-matches `s` (SQLite semantics, ASCII folding, no ESCAPE clause). -/
def likeMatch (pat s : String) : Bool := likeM pat.data s.data

/-- ASCII case-insensitive prefix test (what `LIKE 'pre%'` does for a
wildcard-free `pre`). -/
def ciPre (p s : String) : Bool := (p.data.map foldChar).isPrefixOf (s.data.map foldChar)

/-- `s` contains no `LIKE` wildcard. -/
def noWild (s : String) : Prop := ∀ c ∈ s.data, c ≠ '%' ∧ c ≠ '_'

instance (s : String) : Decidable (noWild s) := by
  unfold noWild; infer_instance

/-! ## Raw-record model

A decoded JSONL line, restricted to the shapes the extractor probes:
on each dict it reads only the keys the source reads (`type`, `role`,
`message`, `content`; per block `type`, `text`, `name`, `input`; per
tool input `file_path`, `command`, `query`, `url`).  `Option` models
key absence (Python `dict.get` defaults). -/

structure ToolInput where
  file_path : Option String
  command : Option String
  query : Option String
  url : Option String

/-- One element of a content list: a dict block (with the fields the code
reads), a bare string, or anything else. -/
inductive Block where
  | blk (type_ : Option String) (text : Option String) (name : Option String) (input : ToolInput)
  | str (s : String)
  | other

/-- A payload value as the extractor distinguishes it: string, list of
blocks, dict (only its `content` key is ever read), or other/None. -/
inductive PyVal where
  | str (s : String)
  | blocks (bs : List Block)
  | dict (content : Option PyVal)
  | other

structure Msg where
  type_ : Option String
  role : Option String
  message : Option PyVal
  content : Option PyVal

/-- The contribution of one content block (`extract_text_from_message`'s
per-block cases).  A `tool_result` block, a dict with any other tag and a
non-dict non-string element contribute nothing. -/
def blockText : Block → String
  | .str s => s
  | .other => ""
  | .blk type_ text name input =>
    if type_ = some "text" then text.getD ""
    else if type_ = some "tool_use" then
      let tool := name.getD "unknown"
      if tool = "Read" then "[Read: " ++ input.file_path.getD "?" ++ "]"
      else if tool = "Write" then "[Write: " ++ input.file_path.getD "?" ++ "]"
      else if tool = "Edit" then "[Edit: " ++ input.file_path.getD "?" ++ "]"
      else if tool = "Bash" then "[Bash: " ++ pyTake (input.command.getD "?") 80 ++ "]"
      else if tool = "WebSearch" || tool = "WebFetch" then
        "[" ++ tool ++ ": " ++ pyTake (input.query.getD (input.url.getD "?")) 60 ++ "]"
      else "[" ++ tool ++ "]"
    else ""

/-- `extract_text_from_message`. -/
def extract_text_from_message (msg : Msg) : String :=
  let role := msg.type_.getD (msg.role.getD "unknown")
  if role = "queue-operation" || role = "file-history-snapshot" || role = "summary"
      || role = "unknown" then ""
  else
    let raw :=
      match msg.message with
      | some v => v
      | none => msg.content.getD (PyVal.str "")
    let raw :=
      match raw with
      | PyVal.dict c => c.getD (PyVal.str "")
      | v => v
    let content :=
      match raw with
      | PyVal.blocks bs => pyJoin "\n" ((bs.map blockText).filter (fun p => p ≠ ""))
      | PyVal.str s => s
      | _ => ""
    let text := scrub_sensitive (pyStrip content)
    if text = "" then ""
    else
      let pfx :=
        if role = "user" then "User"
        else if role = "assistant" then "Claude"
        else pyTitle role
      "**" ++ pfx ++ ":** " ++ text

/-- `extract_first_user_message`: first substantive user text, raw
(note: NOT scrubbed), truncated to 150 characters. -/
def extract_first_user_message : List Msg → String
  | [] => ""
  | msg :: rest =>
    if msg.role = some "user" || msg.type_ = some "user" then
      let content :=
        match msg.message with
        | some v => v
        | none => msg.content.getD (PyVal.str "")
      let content :=
        match content with
        | PyVal.dict c => c.getD (PyVal.str "")
        | v => v
      match content with
      | PyVal.blocks bs =>
        match bs.filterMap (fun b =>
            match b with
            | .blk type_ text _ _ =>
              if type_ = some "text" then
                let t := pyStrip (text.getD "")
                if 10 < t.length then some (pyTake t 150) else none
              else none
            | _ => none) with
        | t :: _ => t
        | [] => extract_first_user_message rest
      | PyVal.str s =>
        if 10 < (pyStrip s).length then pyTake (pyStrip s) 150
        else extract_first_user_message rest
      | _ => extract_first_user_message rest
    else extract_first_user_message rest

/-! ## `derive_project_name` -/

/-- Anchored strip of `^[a-zA-Z]--Users-[^-]+` followed by the literal
`tail`; returns the input unchanged when the pattern does not match at
the start (as `re.sub` with a `^` anchor does).  `[^-]+` is maximal and
deterministic: a shorter run would put a non-dash where `tail`'s leading
dash must match. -/
def stripUsersPat (tail : List Char) (l : List Char) : List Char :=
  match l with
  | [] => l
  | c :: rest =>
    if asciiAlpha c then
      match eatLit "--Users-".data rest with
      | none => l
      | some r1 =>
        let k := runLen (fun x => !(x = '-')) r1
        if k = 0 then l
        else
          match eatLit tail (r1.drop k) with
          | some r2 => r2
          | none => l
    else l

/-- `derive_project_name`. -/
def derive_project_name (folder_name : String) : String :=
  let n1 := stripUsersPat "-Development-".data folder_name.data
  let n2 := stripUsersPat "-".data n1
  let n3 := stripUsersPat "--claude-worktrees-".data n2
  let r := pyStrip (String.mk (n3.map (fun c => if c = '-' then ' ' else if c = '_' then ' ' else c)))
  if r = "" then "General" else r

/-! ## Summarizer -/

/-- Matcher for `^#+\s+` under `re.MULTILINE`: only at a line start. -/
def headerM : Bool → List Char → Option (Nat × List Char) :=
  fun atStart l =>
    if atStart then
      let kh := runLen (fun c => c = '#') l
      if kh = 0 then none
      else
        let kw := runLen pyWsChar (l.drop kh)
        if kw = 0 then none else some (kh + kw, [])
    else none

/-- Matcher for `\*\*([^*]+)\*\*` with replacement `\1` (the group). -/
def boldM : Bool → List Char → Option (Nat × List Char) :=
  fun _ l =>
    match eatLit "**".data l with
    | none => none
    | some r1 =>
      let k := runLen (fun c => !(c = '*')) r1
      if k = 0 then none
      else
        match eatLit "**".data (r1.drop k) with
        | some _ => some (2 + k + 2, r1.take k)
        | none => none

def annNames : List String :=
  ["Read", "Write", "Edit", "Bash", "WebSearch", "WebFetch", "Tool"]

/-- Matcher for `\[(?:Read|Write|Edit|Bash|WebSearch|WebFetch|Tool)[^\]]*\]`
(tool-annotation brackets), replacement empty. -/
def annM : Bool → List Char → Option (Nat × List Char) :=
  fun _ l =>
    match l with
    | [] => none
    | c :: rest =>
      if c = '[' then
        match annNames.filterMap (fun w =>
            (eatLit w.data rest).map (fun r => (w.data.length, r))) with
        | [] => none
        | (wl, r1) :: _ =>
          let k := runLen (fun x => !(x = ']')) r1
          match r1.drop k with
          | ']' :: _ => some (1 + wl + k + 1, [])
          | _ => none
      else none

/-- Strip tool-call annotations (the `re.sub(r'\[(?:Read|...)[^\]]*\]', '', ...)`
shared by `generate_summary` and `generate_chunk_summary`). -/
def stripAnn (s : String) : String := pySub annM s

/-- `re.match(r'^[^.!?\n]+[.!?]', text)`: the first sentence-terminated
clause.  The `[^.!?\n]+` run is maximal and deterministic. -/
def firstSentence (l : List Char) : Option (List Char) :=
  let k := runLen (fun c => !(c = '.' || c = '!' || c = '?' || c = '\n')) l
  if k = 0 then none
  else
    match l.drop k with
    | [] => none
    | c :: _ => if c = '\n' then none else some (l.take (k + 1))

/-- `generate_summary` (the `import_all_sessions.py` version). -/
def generate_summary (text0 : String) : String :=
  let text := pyStrip text0
  let text :=
    if startsWithStr text "---" then
      match splitOnce "---".data (text.data.drop 3) with
      | some p => pyStrip (String.mk p.2)
      | none => text
    else text
  let text := pySub headerM text
  let text := pySub boldM text
  let text := stripAnn text
  let text := pyStrip text
  let fallback :=
    let ws := (splitWs text.data).take 20
    if ws.isEmpty then pyTake text 100 else pyJoin " " ws ++ "..."
  match firstSentence text.data with
  | some sl =>
    let s := pyStrip (String.mk sl)
    let ws := splitWs s.data
    if 3 ≤ ws.length ∧ ws.length ≤ 25 then s else fallback
  | none => fallback

/-- `generate_chunk_summary`. -/
def generate_chunk_summary (chunk_parts : List String) (project_name : String)
    (chunk_num : Nat) : String :=
  let user_topics := chunk_parts.filterMap (fun part =>
    if startsWithStr part "**User:**" then
      let msg := pyStrip (pyDrop part 9)
      if 20 < msg.length then
        let msg2 := pyStrip (stripAnn msg)
        if msg2 = "" then none else some msg2
      else none
    else none)
  let topic_text :=
    match user_topics with
    | topic :: _ =>
      let ws := (splitWs topic.data).take 20
      let t := pyJoin " " ws
      if ws.length = 20 then t ++ "..." else t
    | [] => generate_summary (chunk_parts.headD "")
  pyTake ("Session " ++ project_name ++ " pt" ++ toString chunk_num ++ ": " ++ topic_text) 200

/-! ## Topic-shift predicate and segmenter -/

def leadPhrases : List String :=
  ["can you", "how do", "what", "where", "why", "help me", "i need",
   "i want", "please", "let" ++ String.singleton squoteChar ++ "s", "now ", "next ", "okay so",
   "hey ", "alright"]

/-- `is_topic_shift` (`part[len("**User:**"):]` is `pyDrop part 9`). -/
def is_topic_shift (part prev_part : String) : Bool :=
  if !startsWithStr part "**User:**" then false
  else
    let msg := pyStrip (pyDrop part 9)
    if msg.length < 30 then false
    else if leadPhrases.any (fun w => startsWithStr (pyLower msg) w) then true
    else if startsWithStr prev_part "**Claude:**" && decide (80 < msg.length) then true
    else false

def CHUNK_SIZE : Nat := 4000

/-- The extraction/filter loop at the top of `chunk_session`
(`text_parts`): one entry per message with non-empty extracted text. -/
def extractParts (messages : List Msg) : List String :=
  (messages.map extract_text_from_message).filter (fun t => t ≠ "")

/-- The splitting loop of `chunk_session`: `cur`/`size` are
`current_chunk`/`current_size`, `prev` the previous `part`, `n` is
`chunk_num`.  A chunk is closed before appending `part` when the running
size plus `len(part)` exceeds the budget, or when the running size
exceeds a third of the budget and `part` is a topic shift. -/
def chunkLoop (pname : String) : List String → String → List String → Nat → Nat →
    List (String × String)
  | [], _, cur, _, n =>
    if cur.isEmpty then []
    else [(pyJoin "\n\n" cur, generate_chunk_summary cur pname (n + 1))]
  | part :: rest, prev, cur, size, n =>
    let shouldSplit := !cur.isEmpty &&
      (decide (CHUNK_SIZE < size + part.length) ||
       (decide (CHUNK_SIZE / 3 < size) && is_topic_shift part prev))
    if shouldSplit then
      (pyJoin "\n\n" cur, generate_chunk_summary cur pname (n + 1)) ::
        chunkLoop pname rest part [part] part.length (n + 1)
    else chunkLoop pname rest part (cur ++ [part]) (size + part.length) n

/-- `chunk_session`: list of `(content, summary)` pairs.  (`session_id`
is accepted and unused, as in the source.) -/
def chunk_session (messages : List Msg) (project : String) (_session_id : String) :
    List (String × String) :=
  let text_parts := extractParts messages
  if text_parts.isEmpty then []
  else
    let project_name := derive_project_name project
    let full_text := pyJoin "\n\n" text_parts
    if full_text.length ≤ CHUNK_SIZE then
      let topic := extract_first_user_message messages
      let summary := "Session in " ++ project_name ++ ": " ++
        generate_summary (if topic = "" then full_text else topic)
      [(full_text, pyTake summary 200)]
    else chunkLoop project_name text_parts "" [] 0 0

/-- Proof-side view of the splitting loop: the same control flow, but
returning the groups of parts instead of joined texts. -/
def chunkGroupsAux : List String → String → List String → Nat → List (List String)
  | [], _, cur, _ => if cur.isEmpty then [] else [cur]
  | part :: rest, prev, cur, size =>
    let shouldSplit := !cur.isEmpty &&
      (decide (CHUNK_SIZE < size + part.length) ||
       (decide (CHUNK_SIZE / 3 < size) && is_topic_shift part prev))
    if shouldSplit then cur :: chunkGroupsAux rest part [part] part.length
    else chunkGroupsAux rest part (cur ++ [part]) (size + part.length)

/-- Sum of the lengths of a chunk's parts (what `current_size` tracks —
note it does not count the `"\n\n"` separators). -/
def partSum (l : List String) : Nat := (l.map String.length).sum

/-! ## Store model

The `memories` table and its `memories_fts` mirror are lists of rows.
`metadata` is stored structurally (`metaSource`/`metaFilename`/`metaChunk`)
together with its `json.dumps` serialization `metadataStr` (used for the
SQL `LIKE '%claude-session%'` test; `json.loads` of a row our pipeline
wrote recovers exactly these fields).  `importance` (a Python float that
only ever holds 0.5 here) is modelled as a rational. -/

structure MemRow where
  id : String
  content : String
  type_ : String
  importance : ℚ
  created_at : Nat
  last_accessed : Nat
  is_deleted : Nat
  summary : String
  access_count : Nat
  metaSource : String
  metaFilename : String
  metaChunk : Nat
deriving DecidableEq

structure FtsRow where
  memory_id : String
  content : String
  summary : String
deriving DecidableEq

structure DB where
  memories : List MemRow
  fts : List FtsRow
deriving DecidableEq

/-- JSON string escaping (quote and backslash; the filenames at play
contain neither). -/
def jsonEsc (s : String) : String :=
  String.mk ((s.data.map (fun c => if c = dquoteChar || c = '\\' then ['\\', c] else [c])).flatten)

def dq : String := String.singleton dquoteChar

def metaA : String := "\x7b" ++ dq ++ "source" ++ dq ++ ": " ++ dq

def metaB : String := dq ++ ", " ++ dq ++ "filename" ++ dq ++ ": " ++ dq

def metaC : String := dq ++ ", " ++ dq ++ "chunk" ++ dq ++ ": "

/-- `json.dumps({"source": ..., "filename": ..., "chunk": ...})` with the
default separators. -/
def metadataStr (src fn : String) (idx : Nat) : String :=
  metaA ++ jsonEsc src ++ metaB ++ jsonEsc fn ++ metaC ++ toString idx ++ "\x7d"

/-- Whether the store raises on neither insert, on the primary insert, or
on the full-text insert — the three places `import_chunk`'s `try` block
can be interrupted by `sqlite3.Error`. -/
inductive InsertOutcome where
  | ok
  | failPrimary
  | failFts
deriving DecidableEq

/-- The row `import_chunk` inserts. -/
def mkMemRow (memory_id : String) (now_ms : Nat) (content summary source_file : String)
    (chunk_idx : Nat) : MemRow :=
  ⟨memory_id, content, "fact", 1/2, now_ms, now_ms, 0, summary, 0,
   "claude-session", source_file, chunk_idx⟩

/-- `import_chunk`: two inserts inside one `try`; `sqlite3.Error` is
caught and reported, returning `False`.  If the first insert succeeded
before the second raised, the primary row remains (there is no per-chunk
rollback; the connection commits everything at the end of the run). -/
def import_chunk (now_ms : Nat) (memory_id : String) (outcome : InsertOutcome) (db : DB)
    (content summary source_file : String) (chunk_idx : Nat) : DB × Bool :=
  match outcome with
  | .failPrimary => (db, false)
  | .failFts =>
    (⟨db.memories ++ [mkMemRow memory_id now_ms content summary source_file chunk_idx],
      db.fts⟩, false)
  | .ok =>
    (⟨db.memories ++ [mkMemRow memory_id now_ms content summary source_file chunk_idx],
      db.fts ++ [⟨memory_id, content, summary⟩]⟩, true)

/-- `rebuild_fts`: delete all full-text rows, repopulate from the
non-deleted primary rows. -/
def rebuild_fts (db : DB) : DB :=
  ⟨db.memories,
   (db.memories.filter (fun r => r.is_deleted == 0)).map (fun r => ⟨r.id, r.content, r.summary⟩)⟩

/-- `get_existing_sources`: the `filename` metadata fields of non-deleted
rows whose metadata `LIKE '%claude-session%'` (returned as a list; the
source collects them into a set, which only membership uses). -/
def get_existing_sources (db : DB) : List String :=
  (db.memories.filter (fun r =>
      likeMatch "%claude-session%" (metadataStr r.metaSource r.metaFilename r.metaChunk)
        && r.is_deleted == 0)).map (fun r => r.metaFilename)

/-- Set a row's soft-delete flag (the `UPDATE ... SET is_deleted = 1`). -/
def setDeleted (r : MemRow) : MemRow :=
  ⟨r.id, r.content, r.type_, r.importance, r.created_at, r.last_accessed, 1,
   r.summary, r.access_count, r.metaSource, r.metaFilename, r.metaChunk⟩

/-- `soft_delete`: fetch the first non-deleted row whose id is
`LIKE '{memory_id}%'`; if found, set `is_deleted = 1` on the rows with
that exact id. -/
def soft_delete (db : DB) (memory_id : String) : DB :=
  match db.memories.find? (fun r => likeMatch (memory_id ++ "%") r.id && r.is_deleted == 0) with
  | none => db
  | some row =>
    ⟨db.memories.map (fun r => if r.id = row.id then setDeleted r else r), db.fts⟩

/-- Insertion step for `ORDER BY created_at DESC`. -/
def insertByCreated (x : MemRow) : List MemRow → List MemRow
  | [] => [x]
  | y :: ys => if y.created_at < x.created_at then x :: y :: ys else y :: insertByCreated x ys

def sortByCreatedDesc (l : List MemRow) : List MemRow := l.foldr insertByCreated []

/-- `search`: non-deleted rows whose content is `LIKE '%query%'`, newest
first, projected to `(id, summary, substr(content,1,300), created_at)`. -/
def search (db : DB) (query : String) : List (String × String × String × Nat) :=
  (sortByCreatedDesc (db.memories.filter (fun r =>
      r.is_deleted == 0 && likeMatch ("%" ++ query ++ "%") r.content))).map
    (fun r => (r.id, r.summary, pyTake r.content 300, r.created_at))

/-! ## Ingestion pipeline (`main`, import path)

A run is parametrised by the insert-timestamp `now` (the wall clock), an
id supply `ids` (the `uuid4` stream, indexed by a counter threaded
through the run), and an `oracle` saying which insert calls the store
fails (keyed by source name and chunk index) — the shallow embedding of
`sqlite3` exceptions.  `conn.commit()` is a no-op in the model (all
changes are immediately visible on the shared connection, as they are to
the later statements of the real run). -/

structure Session where
  project : String
  stem : String
  messages : List Msg

/-- Per-session chunk loop of `main`: each chunk is passed to
`import_chunk` with its 0-based index; successes are counted.  Returns
(db, number imported, next id counter). -/
def importChunksAux (oracle : String → Nat → InsertOutcome) (now : Nat) (ids : Nat → String)
    (sn : String) : List (String × String) → Nat → DB → Nat → Nat → DB × Nat × Nat
  | [], _, db, acc, ctr => (db, acc, ctr)
  | (c, sm) :: rest, i, db, acc, ctr =>
    let r := import_chunk now (ids ctr) (oracle sn i) db c sm sn i
    importChunksAux oracle now ids sn rest (i + 1) r.1 (if r.2 then acc + 1 else acc) (ctr + 1)

structure RunState where
  db : DB
  imported : Nat
  skipped : Nat
  ctr : Nat

/-- The session loop of `main`: skip when the source name is a substring
of an already-imported filename, when the session has fewer than 5
records, or when it yields no chunks; otherwise import every chunk.
`existing` is computed once, before the loop, as in the source. -/
def runSessionsAux (oracle : String → Nat → InsertOutcome) (now : Nat) (ids : Nat → String)
    (existing : List String) : List Session → RunState → RunState
  | [], st => st
  | s :: rest, st =>
    let sn := s.project ++ "_" ++ s.stem
    if existing.any (fun e => containsSub sn e) then
      runSessionsAux oracle now ids existing rest ⟨st.db, st.imported, st.skipped + 1, st.ctr⟩
    else if s.messages.length < 5 then
      runSessionsAux oracle now ids existing rest ⟨st.db, st.imported, st.skipped + 1, st.ctr⟩
    else
      let chunks := chunk_session s.messages s.project (pyTake s.stem 8)
      if chunks.isEmpty then
        runSessionsAux oracle now ids existing rest ⟨st.db, st.imported, st.skipped + 1, st.ctr⟩
      else
        let r := importChunksAux oracle now ids sn chunks 0 st.db 0 st.ctr
        runSessionsAux oracle now ids existing rest
          ⟨r.1, st.imported + r.2.1, st.skipped, r.2.2⟩

/-- One import-mode run of `main`: session loop, then the unconditional
`rebuild_fts` safety net. -/
def runImport (oracle : String → Nat → InsertOutcome) (now : Nat) (ids : Nat → String)
    (sessions : List Session) (db : DB) : RunState :=
  let st := runSessionsAux oracle now ids (get_existing_sources db) sessions ⟨db, 0, 0, 0⟩
  ⟨rebuild_fts st.db, st.imported, st.skipped, st.ctr⟩

/-- The oracle of a run during which the store never raises. -/
def okOracle : String → Nat → InsertOutcome := fun _ _ => .ok

/-- The three skip conditions of the session loop, against a given list
of already-imported filenames. -/
def willSkip (existing : List String) (s : Session) : Prop :=
  existing.any (fun e => containsSub (s.project ++ "_" ++ s.stem) e) = true ∨
  s.messages.length < 5 ∨
  (chunk_session s.messages s.project (pyTake s.stem 8)).isEmpty = true

/-! ## Spec-shaped descriptions of a chunk loop's effect (for C4)

These follow the spec's words ("treated as this chunk did not persist",
"the primary record row, then the mirrored full-text row") and are
compared with the loop translated from the source. -/

/-- Rows that survive in the primary table: one per chunk whose primary
insert did not fail (i.e. everything except `failPrimary`). -/
def expectedRows (oracle : String → Nat → InsertOutcome) (now : Nat) (ids : Nat → String)
    (sn : String) : List (String × String) → Nat → Nat → List MemRow
  | [], _, _ => []
  | (c, sm) :: rest, i, ctr =>
    (if oracle sn i = .failPrimary then [] else [mkMemRow (ids ctr) now c sm sn i]) ++
      expectedRows oracle now ids sn rest (i + 1) (ctr + 1)

/-- Full-text rows written incrementally: one per fully successful chunk. -/
def expectedFts (oracle : String → Nat → InsertOutcome) (ids : Nat → String)
    (sn : String) : List (String × String) → Nat → Nat → List FtsRow
  | [], _, _ => []
  | (c, sm) :: rest, i, ctr =>
    (if oracle sn i = .ok then [(⟨ids ctr, c, sm⟩ : FtsRow)] else []) ++
      expectedFts oracle ids sn rest (i + 1) (ctr + 1)

/-- Number of chunks counted as imported: the fully successful ones. -/
def okCount (oracle : String → Nat → InsertOutcome) (sn : String) :
    List (String × String) → Nat → Nat
  | [], _ => 0
  | _ :: rest, i => (if oracle sn i = .ok then 1 else 0) + okCount oracle sn rest (i + 1)

/-! ## Concrete fixtures for counterexamples and witnesses -/

/-- A five-record session whose first user message carries an API key. -/
def secretMsgs : List Msg :=
  [⟨some "user", none, some (.str "Use key sk-ant-api03SECRETTOKEN now please."), none⟩,
   ⟨some "assistant", none, some (.str "Sure thing friend."), none⟩,
   ⟨some "user", none, some (.str "thanks a lot mate"), none⟩,
   ⟨some "assistant", none, some (.str "welcome welcome"), none⟩,
   ⟨some "user", none, some (.str "goodbye now then"), none⟩]

/-- A 1988-character block of `z`s; the extracted assistant line
`**Claude:** z…z` is then exactly 2000 characters. -/
def zBlock : String := String.mk (List.replicate 1988 'z')

/-- One assistant message carrying `zBlock`. -/
def zMsg : Msg := ⟨some "assistant", none, some (.str zBlock), none⟩

/-- The normalized line extracted from `zMsg` (2000 characters). -/
def zPart : String := "**Claude:** " ++ zBlock

/-- Three assistant messages whose normalized lines are 2000 characters
each: total joined text 6004 > 4000, and the first two lines together
sum to exactly 4000 so they land in one chunk of joined length 4002. -/
def bigMsgs : List Msg := [zMsg, zMsg, zMsg]

/-- A small benign five-record session (total well under the budget). -/
def smallMsgs : List Msg :=
  [⟨some "user", none, some (.str "Could we review the notes today somehow?"), none⟩,
   ⟨some "assistant", none, some (.str "Of course, sending them over."), none⟩,
   ⟨some "user", none, some (.str "great, thank you kindly"), none⟩,
   ⟨some "assistant", none, some (.str "any time at all"), none⟩,
   ⟨some "user", none, some (.str "see you tomorrow then"), none⟩]

/-- A 105-character shell command. -/
def longCmd : String := String.mk (List.replicate 105 'c')

/-- A message whose content is a single Bash tool-use block with the
105-character command. -/
def bashMsg : Msg :=
  ⟨some "assistant", none,
   some (.blocks [.blk (some "tool_use") none (some "Bash") ⟨none, some longCmd, none, none⟩]),
   none⟩

/-- A store with one active row whose id is lower-case. -/
def oneRowDB : DB :=
  ⟨[⟨"mem_abcd1234", "some content here", "fact", 1/2, 7, 7, 0, "a summary",
     0, "claude-session", "proj_sess", 0⟩], []⟩

/-- A single-session source set for the C4 run counterexample. -/
def oneSession : List Session := [⟨"proj", "sess0001", smallMsgs⟩]

/-- The oracle that fails every full-text insert (the primary insert
succeeds, then the mirror insert raises). -/
def ftsFailOracle : String → Nat → InsertOutcome := fun _ _ => .failFts

/-- A deterministic stand-in for the uuid supply. -/
def seqIds : Nat → String := fun n => "mem_x" ++ toString n

/-! # Theorems -/

/-! ## Generic string lemmas -/

theorem sdata_append (a b : String) : (a ++ b).data = a.data ++ b.data := by
  cases a; cases b; rfl

theorem slen_data (s : String) : s.length = s.data.length := rfl

theorem slen_append (a b : String) : (a ++ b).length = a.length + b.length := by
  rw [slen_data, slen_data, slen_data, sdata_append, List.length_append]

theorem pyJoin_single (sep x : String) : pyJoin sep [x] = x := rfl

theorem pyJoin_cons (sep x : String) (y : String) (ys : List String) :
    pyJoin sep (x :: y :: ys) = x ++ sep ++ pyJoin sep (y :: ys) := rfl

theorem pyJoin_append (sep : String) :
    ∀ (g h : List String), g ≠ [] → h ≠ [] →
      pyJoin sep (g ++ h) = pyJoin sep g ++ sep ++ pyJoin sep h
  | [], _, hg, _ => absurd rfl hg
  | [x], h, _, hh => by
    cases h with
    | nil => exact absurd rfl hh
    | cons y ys => rfl
  | x :: z :: g2, h, _, hh => by
    have ih := pyJoin_append sep (z :: g2) h (by simp) hh
    show pyJoin sep (x :: ((z :: g2) ++ h)) = pyJoin sep (x :: z :: g2) ++ sep ++ pyJoin sep h
    rw [List.cons_append, pyJoin_cons, ← List.cons_append, ih, pyJoin_cons]
    simp [String.append_assoc]

theorem flatten_ne_nil_of_head {α : Type} (g : List α) (gs : List (List α)) (hg : g ≠ []) :
    (g :: gs).flatten ≠ [] := by
  simp only [List.flatten_cons]
  intro h
  exact hg (List.append_eq_nil.mp h).1

/-- Joining the per-group joins equals joining the flattened groups, when
every group is non-empty. -/
theorem pyJoin_map_flatten (sep : String) (gs : List (List String))
    (h : ∀ g ∈ gs, g ≠ []) :
    pyJoin sep (gs.map (pyJoin sep)) = pyJoin sep gs.flatten := by
  induction gs with
  | nil => rfl
  | cons g rest ih =>
    have hg : g ≠ [] := h g (by simp)
    have hrest : ∀ g' ∈ rest, g' ≠ [] := fun g' hm => h g' (by simp [hm])
    cases rest with
    | nil => simp [pyJoin_single]
    | cons g2 rest2 =>
      have hflat : (g2 :: rest2).flatten ≠ [] :=
        flatten_ne_nil_of_head g2 rest2 (hrest g2 (by simp))
      calc pyJoin sep ((g :: g2 :: rest2).map (pyJoin sep))
          = pyJoin sep g ++ sep ++ pyJoin sep ((g2 :: rest2).map (pyJoin sep)) := rfl
        _ = pyJoin sep g ++ sep ++ pyJoin sep (g2 :: rest2).flatten := by rw [ih hrest]
        _ = pyJoin sep (g ++ (g2 :: rest2).flatten) := by
            rw [pyJoin_append sep g _ hg hflat]
        _ = pyJoin sep (g :: g2 :: rest2).flatten := by
            simp [List.flatten_cons]

theorem pyJoin_length (sep : String) (g : List String) (hg : g ≠ []) :
    (pyJoin sep g).length = partSum g + sep.length * (g.length - 1) := by
  induction g with
  | nil => exact absurd rfl hg
  | cons x rest ih =>
    cases rest with
    | nil => simp [pyJoin_single, partSum]
    | cons y ys =>
      rw [pyJoin_cons, slen_append, slen_append, ih (by simp)]
      simp only [partSum, List.map_cons, List.sum_cons, List.length_cons,
        Nat.add_sub_cancel, Nat.mul_add, Nat.mul_one]
      omega

/-! ## C5: rebuild synchronises the mirror -/

/-- C5: after `rebuild_fts`, the ids in the full-text mirror are exactly
the ids of the non-deleted primary rows (as a list, hence as a set), so
the mirror row count equals the non-deleted primary row count. -/
theorem rebuild_fts_sync (db : DB) :
    (rebuild_fts db).fts.map FtsRow.memory_id =
      (db.memories.filter (fun r => r.is_deleted == 0)).map MemRow.id ∧
    (∀ i : String,
      i ∈ (rebuild_fts db).fts.map FtsRow.memory_id ↔
        i ∈ (db.memories.filter (fun r => r.is_deleted == 0)).map MemRow.id) ∧
    (rebuild_fts db).fts.length =
      (db.memories.filter (fun r => r.is_deleted == 0)).length := by
  have hmap : (rebuild_fts db).fts.map FtsRow.memory_id =
      (db.memories.filter (fun r => r.is_deleted == 0)).map MemRow.id := by
    simp [rebuild_fts, Function.comp]
  refine ⟨hmap, fun i => by rw [hmap], ?_⟩
  simp [rebuild_fts]

/-! ## C7: the topic-shift predicate -/

/-- C7 counterexample: a user line whose bulk is a tool annotation.  The
code judges it a topic shift (raw text is 89 characters), although its
annotation-stripped text is 2 characters — the claim's "at least 30
characters after stripping tool annotations" would forbid this. -/
def annPart : String :=
  "**User:** [Bash: " ++ String.mk (List.replicate 78 'z') ++ "] ok"

theorem is_topic_shift_annotation_counterexample :
    is_topic_shift annPart "**Claude:** done" = true ∧
    (pyStrip (stripAnn (pyStrip (pyDrop annPart 9)))).length < 30 := by
  constructor
  · decide
  · decide

/-- C7 (amended: the 30- and 80-character thresholds apply to the raw
message text after the speaker prefix and whitespace are removed, not to
annotation-stripped text): `is_topic_shift part prev` holds iff `part` is
a `**User:**` line whose stripped remainder has length ≥ 30 and either
its lower-casing opens with one of the fixed lead-in phrases, or `prev`
is a `**Claude:**` line and the remainder exceeds 80 characters. -/
theorem is_topic_shift_characterization (part prev : String) :
    is_topic_shift part prev = true ↔
      (startsWithStr part "**User:**" = true ∧
       30 ≤ (pyStrip (pyDrop part 9)).length ∧
       (leadPhrases.any (fun w => startsWithStr (pyLower (pyStrip (pyDrop part 9))) w) = true ∨
        (startsWithStr prev "**Claude:**" = true ∧ 80 < (pyStrip (pyDrop part 9)).length))) := by
  cases h1 : startsWithStr part "**User:**"
  · simp [is_topic_shift, h1]
  · simp only [is_topic_shift, h1, Bool.not_true, Bool.false_eq_true, if_false]
    split_ifs with h2 h3 h4
    · simp only [Bool.false_eq_true, false_iff]
      intro hcon
      omega
    · simp only [true_iff]
      exact ⟨trivial, by omega, Or.inl h3⟩
    · simp only [true_iff]
      rw [Bool.and_eq_true, decide_eq_true_iff] at h4
      exact ⟨trivial, by omega, Or.inr ⟨h4.1, h4.2⟩⟩
    · simp only [Bool.false_eq_true, false_iff]
      rintro ⟨-, h30, hor⟩
      rcases hor with hlead | ⟨hcl, h80⟩
      · exact h3 hlead
      · exact h4 (by simp [hcl, h80])

/-! ## C9: Bash-command truncation in the ingestion pipeline -/

/-- C9 counterexample: the ingestion pipeline's extraction of a Bash
tool-use block with a 105-character command keeps only the first 80
characters and appends no ellipsis — the annotation claimed by the spec
(first 100 characters plus `...`, which is what `export_chat.py` emits)
does not occur in the extracted line. -/
theorem bash_annotation_counterexample :
    extract_text_from_message bashMsg =
      "**Claude:** [Bash: " ++ String.mk (List.replicate 80 'c') ++ "]" ∧
    containsSub (pyTake longCmd 100 ++ "...") (extract_text_from_message bashMsg) = false := by
  constructor
  · decide
  · decide

/-- C9 (amended: the pipeline's annotation holds exactly the first 80
characters of the command, with no ellipsis marker): for every
105-character command, the Bash block's contribution is
`[Bash: ` ++ first 80 characters ++ `]`. -/
theorem blockText_bash_truncates_80 (c : String) (_h : c.length = 105) :
    blockText (Block.blk (some "tool_use") none (some "Bash") ⟨none, some c, none, none⟩) =
      "[Bash: " ++ pyTake c 80 ++ "]" := by
  rfl

theorem blockText_bash_truncates_80_witness :
    longCmd.length = 105 ∧
    blockText (Block.blk (some "tool_use") none (some "Bash") ⟨none, some longCmd, none, none⟩) =
      "[Bash: " ++ pyTake longCmd 80 ++ "]" :=
  ⟨by decide, blockText_bash_truncates_80 longCmd (by decide)⟩

/-! ## C8: small sessions give exactly one chunk -/

/-- C8: when a session has at least one normalized line and the joined
text is within the budget, segmentation emits exactly one chunk whose
text is the full joined text (the splitting loop is never entered). -/
theorem chunk_session_single_chunk (messages : List Msg) (project sid : String)
    (h1 : extractParts messages ≠ [])
    (h2 : (pyJoin "\n\n" (extractParts messages)).length ≤ CHUNK_SIZE) :
    (chunk_session messages project sid).map Prod.fst =
      [pyJoin "\n\n" (extractParts messages)] := by
  unfold chunk_session
  have hne : (extractParts messages).isEmpty = false := by
    cases hh : extractParts messages
    · exact absurd hh h1
    · rfl
  simp [hne, h2]

theorem chunk_session_single_chunk_witness :
    extractParts smallMsgs ≠ [] ∧
    (pyJoin "\n\n" (extractParts smallMsgs)).length ≤ CHUNK_SIZE ∧
    (chunk_session smallMsgs "proj" "sess0001").map Prod.fst =
      [pyJoin "\n\n" (extractParts smallMsgs)] :=
  ⟨by decide, by decide,
   chunk_session_single_chunk smallMsgs "proj" "sess0001" (by decide) (by decide)⟩

/-! ## Splitting-loop invariants -/

theorem partSum_nil : partSum [] = 0 := rfl

theorem partSum_single (x : String) : partSum [x] = x.length := by
  simp [partSum]

theorem partSum_append (a b : List String) : partSum (a ++ b) = partSum a + partSum b := by
  simp [partSum]

/-- The groups of the splitting loop partition `cur ++ parts` in order. -/
theorem chunkGroups_flatten :
    ∀ (parts : List String) (prev : String) (cur : List String) (size : Nat),
      (chunkGroupsAux parts prev cur size).flatten = cur ++ parts
  | [], _, [], _ => by simp [chunkGroupsAux]
  | [], _, c :: cs, _ => by simp [chunkGroupsAux]
  | part :: rest, prev, cur, size => by
    cases hb : (!cur.isEmpty &&
        (decide (CHUNK_SIZE < size + part.length) ||
         (decide (CHUNK_SIZE / 3 < size) && is_topic_shift part prev)))
    · simp only [chunkGroupsAux, hb, Bool.false_eq_true, if_false]
      rw [chunkGroups_flatten rest part (cur ++ [part]) (size + part.length)]
      simp
    · simp only [chunkGroupsAux, hb, if_true]
      rw [List.flatten_cons, chunkGroups_flatten rest part [part] part.length]
      simp

/-- Every emitted group is non-empty. -/
theorem chunkGroups_ne_nil :
    ∀ (parts : List String) (prev : String) (cur : List String) (size : Nat),
      ∀ g ∈ chunkGroupsAux parts prev cur size, g ≠ []
  | [], _, [], _ => by simp [chunkGroupsAux]
  | [], _, c :: cs, _ => by simp [chunkGroupsAux]
  | part :: rest, prev, cur, size => by
    cases hb : (!cur.isEmpty &&
        (decide (CHUNK_SIZE < size + part.length) ||
         (decide (CHUNK_SIZE / 3 < size) && is_topic_shift part prev)))
    · simp only [chunkGroupsAux, hb, Bool.false_eq_true, if_false]
      exact chunkGroups_ne_nil rest part (cur ++ [part]) (size + part.length)
    · simp only [chunkGroupsAux, hb, if_true]
      intro g hg
      rcases List.mem_cons.mp hg with hgeq | hgm
      · subst hgeq
        intro hnil
        rw [hnil] at hb
        simp at hb
      · exact chunkGroups_ne_nil rest part [part] part.length g hgm

/-- Size invariant of the splitting loop: every emitted group either is a
single line or has part-length sum within the budget (`current_size`
counts exactly the part lengths). -/
theorem chunkGroups_size :
    ∀ (parts : List String) (prev : String) (cur : List String) (size : Nat),
      size = partSum cur →
      (cur = [] ∨ partSum cur ≤ CHUNK_SIZE ∨ cur.length = 1) →
      ∀ g ∈ chunkGroupsAux parts prev cur size,
        partSum g ≤ CHUNK_SIZE ∨ g.length = 1
  | [], _, [], _ => by simp [chunkGroupsAux]
  | [], _, c :: cs, _ => by
    intro _ hinv g hg
    simp only [chunkGroupsAux, List.isEmpty_cons, Bool.false_eq_true, if_false,
      List.mem_singleton] at hg
    subst hg
    rcases hinv with h | h | h
    · exact absurd h (by simp)
    · exact Or.inl h
    · exact Or.inr h
  | part :: rest, prev, cur, size => by
    intro hsz hinv
    cases hb : (!cur.isEmpty &&
        (decide (CHUNK_SIZE < size + part.length) ||
         (decide (CHUNK_SIZE / 3 < size) && is_topic_shift part prev)))
    · simp only [chunkGroupsAux, hb, Bool.false_eq_true, if_false]
      refine chunkGroups_size rest part (cur ++ [part]) (size + part.length) ?_ ?_
      · rw [partSum_append, partSum_single, hsz]
      · cases hcur : cur with
        | nil => exact Or.inr (Or.inr (by simp))
        | cons c cs =>
          refine Or.inr (Or.inl ?_)
          have hie : cur.isEmpty = false := by rw [hcur]; rfl
          rw [hie, Bool.not_false, Bool.true_and] at hb
          rcases Bool.or_eq_false_iff.mp hb with ⟨hb1, -⟩
          have hle : size + part.length ≤ CHUNK_SIZE := by
            have := of_decide_eq_false hb1
            omega
          rw [partSum_append, partSum_single, ← hcur, ← hsz]
          exact hle
    · simp only [chunkGroupsAux, hb, if_true]
      intro g hg
      rcases List.mem_cons.mp hg with hg | hg
      · subst hg
        rcases hinv with h | h | h
        · rw [h] at hb; simp at hb
        · exact Or.inl h
        · exact Or.inr h
      · exact chunkGroups_size rest part [part] part.length
          (by rw [partSum_single]) (Or.inr (Or.inr rfl)) g hg

/-- The source loop (`chunkLoop`, producing joined texts) projects to the
group loop under `pyJoin "\n\n"`. -/
theorem chunkLoop_map_fst :
    ∀ (parts : List String) (prev : String) (cur : List String) (size n : Nat) (pname : String),
      (chunkLoop pname parts prev cur size n).map Prod.fst =
        (chunkGroupsAux parts prev cur size).map (pyJoin "\n\n")
  | [], _, cur, _, n, pname => by
    cases cur <;> simp [chunkLoop, chunkGroupsAux]
  | part :: rest, prev, cur, size, n, pname => by
    cases hb : (!cur.isEmpty &&
        (decide (CHUNK_SIZE < size + part.length) ||
         (decide (CHUNK_SIZE / 3 < size) && is_topic_shift part prev)))
    · simp only [chunkLoop, chunkGroupsAux, hb, Bool.false_eq_true, if_false]
      exact chunkLoop_map_fst rest part (cur ++ [part]) (size + part.length) n pname
    · simp only [chunkLoop, chunkGroupsAux, hb, if_true, List.map_cons]
      rw [chunkLoop_map_fst rest part [part] part.length (n + 1) pname]

/-! ## Facts about the oversized fixture `bigMsgs`

These are proved by length bookkeeping instead of evaluation (the
strings are thousands of characters long). -/

theorem smk_data (l : List Char) : (String.mk l).data = l := rfl

theorem zBlock_chars : ∀ c ∈ zBlock.data, c = 'z' := by
  intro c hc
  rw [zBlock, smk_data] at hc
  exact (List.eq_of_mem_replicate hc)

theorem zBlock_len : zBlock.length = 1988 := by
  rw [slen_data, zBlock, smk_data, List.length_replicate]

theorem zBlock_ne_empty : zBlock ≠ "" := by
  intro h
  have := congrArg String.length h
  rw [zBlock_len] at this
  simp at this

theorem dropWhile_id_of_none (p : Char → Bool) :
    ∀ (l : List Char), (∀ c ∈ l, p c = false) → l.dropWhile p = l
  | [], _ => rfl
  | c :: cs, h => by
    have hc : p c = false := h c (by simp)
    simp [List.dropWhile, hc]

theorem pyStrip_id (s : String) (h : ∀ c ∈ s.data, pyWsChar c = false) :
    pyStrip s = s := by
  cases s with
  | mk l =>
    rw [pyStrip, smk_data]
    unfold pyStripList
    rw [dropWhile_id_of_none pyWsChar l h,
      dropWhile_id_of_none pyWsChar l.reverse (fun c hc => h c (List.mem_reverse.mp hc)),
      List.reverse_reverse]

theorem matchSkAnt_z : ∀ (t : List Char), (∀ c ∈ t, c = 'z') → matchSkAnt t = none
  | [], _ => rfl
  | c :: cs, h => by
    have hc : c = 'z' := h c (by simp)
    subst hc
    rfl

theorem matchSk_z : ∀ (t : List Char), (∀ c ∈ t, c = 'z') → matchSk t = none
  | [], _ => rfl
  | c :: cs, h => by
    have hc : c = 'z' := h c (by simp)
    subst hc
    rfl

theorem matchGhp_z : ∀ (t : List Char), (∀ c ∈ t, c = 'z') → matchGhp t = none
  | [], _ => rfl
  | c :: cs, h => by
    have hc : c = 'z' := h c (by simp)
    subst hc
    rfl

theorem matchApiKey_z : ∀ (t : List Char), (∀ c ∈ t, c = 'z') → matchApiKey t = none
  | [], _ => rfl
  | c :: cs, h => by
    have hc : c = 'z' := h c (by simp)
    subst hc
    rfl

theorem matchPassword_z : ∀ (t : List Char), (∀ c ∈ t, c = 'z') → matchPassword t = none
  | [], _ => rfl
  | c :: cs, h => by
    have hc : c = 'z' := h c (by simp)
    subst hc
    rfl

/-- A substitution whose matcher never fires on all-`z` text is the
identity there. -/
theorem pySubAux_z (m : Bool → List Char → Option (Nat × List Char))
    (hm : ∀ (b : Bool) (t : List Char), (∀ c ∈ t, c = 'z') → m b t = none) :
    ∀ (fuel : Nat) (b : Bool) (l : List Char), l.length < fuel → (∀ c ∈ l, c = 'z') →
      pySubAux m fuel b l = l := by
  intro fuel
  induction fuel with
  | zero => intro b l hl; omega
  | succ n ih =>
    intro b l hl hz
    cases l with
    | nil => rfl
    | cons c cs =>
      rw [pySubAux, hm b (c :: cs) hz]
      rw [ih (c == '\n') cs (by simp at hl; omega) (fun x hx => hz x (by simp [hx]))]

theorem pySub_z (m : Bool → List Char → Option (Nat × List Char))
    (hm : ∀ (b : Bool) (t : List Char), (∀ c ∈ t, c = 'z') → m b t = none)
    (s : String) (hz : ∀ c ∈ s.data, c = 'z') : pySub m s = s := by
  cases s with
  | mk l =>
    rw [pySub, smk_data, pySubAux_z m hm (l.length + 1) true l (by omega) hz]

theorem plainM_z (m : List Char → Option Nat) (rep : String)
    (hz : ∀ (t : List Char), (∀ c ∈ t, c = 'z') → m t = none) :
    ∀ (b : Bool) (t : List Char), (∀ c ∈ t, c = 'z') → plainM m rep b t = none := by
  intro b t h
  rw [plainM, hz t h]
  rfl

theorem scrub_z (s : String) (hz : ∀ c ∈ s.data, c = 'z') : scrub_sensitive s = s := by
  rw [scrub_sensitive]
  rw [pySub_z _ (plainM_z _ _ matchSkAnt_z) s hz,
    pySub_z _ (plainM_z _ _ matchSk_z) s hz,
    pySub_z _ (plainM_z _ _ matchGhp_z) s hz,
    pySub_z _ (plainM_z _ _ matchApiKey_z) s hz,
    pySub_z _ (plainM_z _ _ matchPassword_z) s hz]

theorem extract_zMsg : extract_text_from_message zMsg = zPart := by
  have h1 : pyStrip zBlock = zBlock :=
    pyStrip_id zBlock (fun c hc => by rw [zBlock_chars c hc]; rfl)
  have h2 : scrub_sensitive zBlock = zBlock := scrub_z zBlock zBlock_chars
  rw [extract_text_from_message]
  simp only [zMsg, Option.getD_some]
  rw [if_neg (by decide)]
  simp only [h1, h2]
  rw [if_neg zBlock_ne_empty]
  simp only [reduceIte]
  rfl

theorem zPart_ne_empty : zPart ≠ "" := by
  intro h
  have := congrArg String.length h
  rw [zPart, slen_append, zBlock_len] at this
  simp [slen_data] at this

theorem zPart_len : zPart.length = 2000 := by
  rw [zPart, slen_append, zBlock_len]
  rfl

theorem extractParts_bigMsgs : extractParts bigMsgs = [zPart, zPart, zPart] := by
  rw [extractParts, bigMsgs]
  simp only [List.map_cons, List.map_nil, extract_zMsg]
  simp [List.filter_cons, zPart_ne_empty]

theorem bigFull_len : (pyJoin "\n\n" (extractParts bigMsgs)).length = 6004 := by
  rw [extractParts_bigMsgs,
    pyJoin_length "\n\n" [zPart, zPart, zPart] (by simp)]
  simp [partSum, zPart_len]
  rfl

theorem zPart_not_user : startsWithStr zPart "**User:**" = false := by decide

theorem is_topic_shift_zPart (p : String) : is_topic_shift zPart p = false := by
  rw [is_topic_shift, zPart_not_user]
  rfl

theorem chunkGroups_bigMsgs :
    chunkGroupsAux [zPart, zPart, zPart] "" [] 0 = [[zPart, zPart], [zPart]] := by
  simp [chunkGroupsAux, zPart_len, is_topic_shift_zPart, CHUNK_SIZE]

theorem chunk_session_bigMsgs :
    (chunk_session bigMsgs "proj" "sess0001").map Prod.fst =
      [zPart ++ "\n\n" ++ zPart, zPart] := by
  have hfull : (pyJoin "\n\n" (extractParts bigMsgs)).length = 6004 := bigFull_len
  rw [extractParts_bigMsgs] at hfull
  simp only [chunk_session, extractParts_bigMsgs, hfull, List.isEmpty_cons,
    Bool.false_eq_true, if_false, CHUNK_SIZE]
  rw [if_neg (by omega)]
  rw [chunkLoop_map_fst, chunkGroups_bigMsgs]
  rfl

/-! ## C2: the budget bound on emitted chunks -/

/-- C2 counterexample: a session with three 2000-character lines and a
6004-character total.  The first emitted chunk has two lines and length
4002 > 4000 (the loop compares `current_size + len(part)` against the
budget without counting the two-character blank-line separators), and it
is not a single normalized line, so the claimed bound fails. -/
theorem chunk_budget_counterexample :
    (chunk_session bigMsgs "proj" "sess0001").map Prod.fst = [zPart ++ "\n\n" ++ zPart, zPart] ∧
    (zPart ++ "\n\n" ++ zPart).length = 4002 ∧
    CHUNK_SIZE < (pyJoin "\n\n" (extractParts bigMsgs)).length ∧
    zPart ++ "\n\n" ++ zPart ∉ extractParts bigMsgs := by
  have hlen : (zPart ++ "\n\n" ++ zPart).length = 4002 := by
    rw [slen_append, slen_append, zPart_len]
    rfl
  refine ⟨chunk_session_bigMsgs, hlen, by rw [bigFull_len]; decide, ?_⟩
  rw [extractParts_bigMsgs]
  intro hmem
  have : (zPart ++ "\n\n" ++ zPart).length = zPart.length := by
    rcases List.mem_cons.mp hmem with h | h
    · rw [h]
    · rcases List.mem_cons.mp h with h | h
      · rw [h]
      · rw [List.mem_singleton.mp h]
  rw [hlen, zPart_len] at this
  omega

/-- C2 (amended: the budget is enforced on the sum of a chunk's line
lengths, excluding the two-character blank-line separators): for a
session whose joined text exceeds the budget, every emitted chunk is the
blank-line join of a non-empty group of normalized lines and either is a
single line (emitted whole, never truncated) or has line-length sum at
most 4000, hence text length at most `4000 + 2·(lines − 1)`. -/
theorem chunk_session_budget_amended (messages : List Msg) (project sid : String)
    (hbig : CHUNK_SIZE < (pyJoin "\n\n" (extractParts messages)).length) :
    ∀ p ∈ chunk_session messages project sid,
      ∃ g : List String, g ≠ [] ∧ (∀ x ∈ g, x ∈ extractParts messages) ∧
        p.1 = pyJoin "\n\n" g ∧
        (g.length = 1 ∨
         (partSum g ≤ CHUNK_SIZE ∧ p.1.length ≤ CHUNK_SIZE + 2 * (g.length - 1))) := by
  intro p hp
  have hne : (extractParts messages).isEmpty = false := by
    cases hh : extractParts messages
    · rw [hh] at hbig; simp [pyJoin] at hbig
    · rfl
  have hnotle : ¬ (pyJoin "\n\n" (extractParts messages)).length ≤ CHUNK_SIZE := by omega
  rw [chunk_session, if_neg (by simp [hne]), if_neg hnotle] at hp
  have hfst : p.1 ∈ (chunkGroupsAux (extractParts messages) "" [] 0).map (pyJoin "\n\n") := by
    rw [← chunkLoop_map_fst]
    exact List.mem_map_of_mem Prod.fst hp
  rcases List.mem_map.mp hfst with ⟨g, hg, hgeq⟩
  have hgne : g ≠ [] := chunkGroups_ne_nil (extractParts messages) "" [] 0 g hg
  have hmem : ∀ x ∈ g, x ∈ extractParts messages := by
    intro x hx
    have : x ∈ (chunkGroupsAux (extractParts messages) "" [] 0).flatten :=
      List.mem_flatten.mpr ⟨g, hg, hx⟩
    rw [chunkGroups_flatten] at this
    simpa using this
  have hsize := chunkGroups_size (extractParts messages) "" [] 0 rfl (Or.inl rfl) g hg
  refine ⟨g, hgne, hmem, hgeq.symm, ?_⟩
  rcases hsize with h | h
  · refine Or.inr ⟨h, ?_⟩
    rw [← hgeq, pyJoin_length _ g hgne]
    have hsep : ("\n\n" : String).length = 2 := rfl
    rw [hsep]
    omega
  · exact Or.inl h

theorem chunk_session_budget_amended_witness :
    CHUNK_SIZE < (pyJoin "\n\n" (extractParts bigMsgs)).length ∧
    (∀ p ∈ chunk_session bigMsgs "proj" "sess0001",
      ∃ g : List String, g ≠ [] ∧ (∀ x ∈ g, x ∈ extractParts bigMsgs) ∧
        p.1 = pyJoin "\n\n" g ∧
        (g.length = 1 ∨
         (partSum g ≤ CHUNK_SIZE ∧ p.1.length ≤ CHUNK_SIZE + 2 * (g.length - 1)))) :=
  ⟨by rw [bigFull_len]; decide,
   chunk_session_budget_amended bigMsgs "proj" "sess0001" (by rw [bigFull_len]; decide)⟩

/-! ## C10: multi-chunk segmentation is a partition of the text -/

/-- C10: when segmentation emits more than one chunk, joining the chunk
texts in emission order with the blank-line separator reproduces the
session's full normalized text — no line is dropped, duplicated,
reordered or split. -/
theorem chunk_session_concat (messages : List Msg) (project sid : String)
    (h : 1 < (chunk_session messages project sid).length) :
    pyJoin "\n\n" ((chunk_session messages project sid).map Prod.fst) =
      pyJoin "\n\n" (extractParts messages) := by
  by_cases hne : (extractParts messages).isEmpty
  · rw [chunk_session, if_pos hne] at h
    simp at h
  · by_cases hsmall : (pyJoin "\n\n" (extractParts messages)).length ≤ CHUNK_SIZE
    · rw [chunk_session, if_neg (by simp [hne]), if_pos hsmall] at h
      simp at h
    · rw [chunk_session, if_neg (by simp [hne]), if_neg hsmall]
      rw [chunkLoop_map_fst]
      rw [pyJoin_map_flatten _ _ (chunkGroups_ne_nil (extractParts messages) "" [] 0)]
      rw [chunkGroups_flatten]
      rfl

theorem bigMsgs_two_chunks : 1 < (chunk_session bigMsgs "proj" "sess0001").length := by
  have h := congrArg List.length chunk_session_bigMsgs
  rw [List.length_map] at h
  rw [h]
  decide

theorem chunk_session_concat_witness :
    1 < (chunk_session bigMsgs "proj" "sess0001").length ∧
    pyJoin "\n\n" ((chunk_session bigMsgs "proj" "sess0001").map Prod.fst) =
      pyJoin "\n\n" (extractParts bigMsgs) :=
  ⟨bigMsgs_two_chunks, chunk_session_concat bigMsgs "proj" "sess0001" bigMsgs_two_chunks⟩

/-! ## C1: a raw secret reaches a persisted summary -/

/-- C1 (code bug in the source): the five-record session `secretMsgs`
holds an API key that the scrubber recognises (last conjunct).  The
chunk content is scrubbed, but the single-chunk summary is built from
`extract_first_user_message`, which reads the raw record text without
scrubbing: the persisted summary contains the literal matched secret,
violating "no text persisted by the ingestion pipeline contains the
matched substring". -/
theorem scrub_bypass_in_summary :
    (chunk_session secretMsgs "proj" "sess0001").length = 1 ∧
    containsSub "sk-ant-api03SECRETTOKEN"
      ((chunk_session secretMsgs "proj" "sess0001").headD ("", "")).2 = true ∧
    containsSub "sk-ant-api03SECRETTOKEN"
      ((chunk_session secretMsgs "proj" "sess0001").headD ("", "")).1 = false ∧
    scrub_sensitive "Use key sk-ant-api03SECRETTOKEN now please." =
      "Use key [REDACTED_API_KEY] now please." := by
  refine ⟨by decide, by decide, by decide, by decide⟩

/-! ## `LIKE` semantics lemmas -/

theorem likeTail_nilM : ∀ (s : List Char), likeTail (likeM []) s = true
  | [] => rfl
  | _ :: s => by
    rw [likeTail, likeTail_nilM s, Bool.or_true]

theorem nil_isPrefixOf (l : List Char) : List.isPrefixOf [] l = true := by
  cases l <;> rfl

theorem likeM_cons (p : Char) (ps s : List Char) :
    likeM (p :: ps) s =
      if p = '%' then likeTail (likeM ps) s
      else
        match s with
        | [] => false
        | d :: s' => if p = '_' then likeM ps s' else (foldChar p = foldChar d) && likeM ps s' :=
  rfl

theorem decide_eq_beq (x y : Char) : decide (x = y) = (x == y) := by
  by_cases he : x = y
  · subst he; simp
  · simp [he]

/-- A wildcard-free literal followed by `%` LIKE-matches exactly the
strings with that literal as a case-folded prefix. -/
theorem likeM_lit_pct :
    ∀ (lit : List Char), (∀ c ∈ lit, c ≠ '%' ∧ c ≠ '_') →
      ∀ (s : List Char), likeM (lit ++ ['%']) s = (lit.map foldChar).isPrefixOf (s.map foldChar)
  | [], _, s => by
    rw [List.nil_append, List.map_nil, likeM_cons, if_pos rfl, likeTail_nilM, nil_isPrefixOf]
  | c :: lit, h, s => by
    have hc := h c (by simp)
    rw [List.cons_append, likeM_cons, if_neg hc.1]
    cases s with
    | nil => rfl
    | cons d s' =>
      show (if c = '_' then likeM (lit ++ ['%']) s'
            else (foldChar c = foldChar d) && likeM (lit ++ ['%']) s') =
        ((foldChar c :: lit.map foldChar).isPrefixOf (foldChar d :: s'.map foldChar))
      rw [if_neg hc.2, likeM_lit_pct lit (fun x hx => h x (by simp [hx])) s', decide_eq_beq]
      rfl

theorem likeTail_of_suffix (f : List Char → Bool) :
    ∀ (s t : List Char), t <:+ s → f t = true → likeTail f s = true := by
  intro s
  induction s with
  | nil =>
    intro t ht hf
    rw [List.suffix_nil.mp ht] at hf
    exact hf
  | cons c s' ih =>
    intro t ht hf
    rcases ht with ⟨u, hu⟩
    cases u with
    | nil =>
      rw [List.nil_append] at hu
      rw [likeTail, ← hu, hf, Bool.true_or]
    | cons a u' =>
      rw [List.cons_append] at hu
      injection hu with h1 h2
      rw [likeTail, ih t ⟨u', h2⟩ hf, Bool.or_true]

theorem isPrefixOf_append_self (l r : List Char) : l.isPrefixOf (l ++ r) = true := by
  induction l with
  | nil => exact nil_isPrefixOf r
  | cons c cs ih =>
    rw [List.cons_append]
    show (c == c && cs.isPrefixOf (cs ++ r)) = true
    rw [beq_self_eq_true, ih]
    rfl

/-- `LIKE '%lit%'` holds whenever `lit` occurs literally. -/
theorem likeMatch_of_infix (lit s : String) (hw : noWild lit) (pre suf : List Char)
    (hs : s.data = pre ++ lit.data ++ suf) :
    likeMatch ("%" ++ lit ++ "%") s = true := by
  have hpat : ("%" ++ lit ++ "%").data = '%' :: (lit.data ++ ['%']) := by
    rw [sdata_append, sdata_append]
    rfl
  rw [likeMatch, hpat, likeM_cons, if_pos rfl]
  refine likeTail_of_suffix (likeM (lit.data ++ ['%'])) s.data (lit.data ++ suf)
    ⟨pre, by rw [hs, List.append_assoc]⟩ ?_
  rw [likeM_lit_pct lit.data hw, List.map_append]
  exact isPrefixOf_append_self (lit.data.map foldChar) (suf.map foldChar)

/-- For a wildcard-free prefix, `LIKE 'pre%'` on an identifier is the
ASCII case-insensitive prefix test. -/
theorem likeMatch_pct (pre : String) (hw : noWild pre) (s : String) :
    likeMatch (pre ++ "%") s = ciPre pre s := by
  show likeM (pre ++ "%").data s.data = ciPre pre s
  rw [show (pre ++ "%").data = pre.data ++ ['%'] from by rw [sdata_append]]
  exact likeM_lit_pct pre.data hw s.data

theorem band_true_split {a b : Bool} (h : (a && b) = true) : a = true ∧ b = true := by
  simp only [Bool.and_eq_true] at h
  exact h

/-! ## `find?` and sorting helpers -/

theorem find?_split {α : Type} (p : α → Bool) :
    ∀ (l : List α) (a : α), l.find? p = some a →
      ∃ l₁ l₂, l = l₁ ++ a :: l₂ ∧ (∀ x ∈ l₁, p x = false) ∧ p a = true
  | [], a, h => by simp [List.find?] at h
  | x :: xs, a, h => by
    cases hx : p x with
    | true =>
      rw [List.find?_cons_of_pos _ hx] at h
      injection h with h
      subst h
      exact ⟨[], xs, rfl, by simp, hx⟩
    | false =>
      rw [List.find?_cons_of_neg _ (by simp [hx])] at h
      rcases find?_split p xs a h with ⟨l₁, l₂, hl, hall, ha⟩
      exact ⟨x :: l₁, l₂, by rw [hl]; rfl,
        fun y hy => by
          rcases List.mem_cons.mp hy with hy | hy
          · subst hy; exact hx
          · exact hall y hy, ha⟩

theorem find?_append_cons {α : Type} (p : α → Bool) (a : α) (l₂ : List α) :
    ∀ (l₁ : List α), (∀ x ∈ l₁, p x = false) → p a = true →
      (l₁ ++ a :: l₂).find? p = some a
  | [], _, ha => by
    rw [List.nil_append, List.find?_cons_of_pos _ ha]
  | x :: l₁, h, ha => by
    rw [List.cons_append, List.find?_cons_of_neg _ (by simp [h x (by simp)])]
    exact find?_append_cons p a l₂ l₁ (fun y hy => h y (by simp [hy])) ha

theorem find?_congr {α : Type} (p q : α → Bool) (hpq : ∀ x, p x = q x) :
    ∀ (l : List α), l.find? p = l.find? q
  | [] => rfl
  | x :: xs => by
    rw [List.find?_cons, List.find?_cons, hpq x, find?_congr p q hpq xs]

theorem mem_insertByCreated (x y : MemRow) :
    ∀ (l : List MemRow), y ∈ insertByCreated x l ↔ y = x ∨ y ∈ l
  | [] => by simp [insertByCreated]
  | z :: zs => by
    rw [insertByCreated]
    by_cases h : z.created_at < x.created_at
    · rw [if_pos h]
      simp [or_comm, or_assoc, or_left_comm]
    · rw [if_neg h]
      rw [List.mem_cons, List.mem_cons, mem_insertByCreated x y zs]
      tauto

theorem mem_sortByCreatedDesc (y : MemRow) :
    ∀ (l : List MemRow), y ∈ sortByCreatedDesc l ↔ y ∈ l
  | [] => Iff.rfl
  | z :: zs => by
    rw [sortByCreatedDesc, List.foldr_cons]
    rw [show List.foldr insertByCreated [] zs = sortByCreatedDesc zs from rfl]
    rw [mem_insertByCreated z y (sortByCreatedDesc zs), mem_sortByCreatedDesc y zs,
      List.mem_cons]

/-! ## C6: the soft-delete frame -/

/-- C6 counterexample: `soft_delete` with the upper-case prefix `MEM_AB`
flips the only row, whose id is `mem_abcd1234` — yet `MEM_AB` is not a
case-sensitive prefix of that identifier (SQLite `LIKE` folds ASCII
case), so "matches by a case-sensitive prefix comparison" fails. -/
theorem soft_delete_case_counterexample :
    oneRowDB.memories.map MemRow.id = ["mem_abcd1234"] ∧
    (soft_delete oneRowDB "MEM_AB").memories.map MemRow.is_deleted = [1] ∧
    "MEM_AB".data.isPrefixOf "mem_abcd1234".data = false := by
  refine ⟨by decide, by decide, by decide⟩

/-- C6 (amended: the prefix comparison is SQLite `LIKE`, which is ASCII
case-insensitive — stated here for wildcard-free prefixes as a
case-insensitive prefix test): `soft_delete` touches nothing when no
active row matches; otherwise it rewrites exactly the first matching
non-deleted row to its copy with `is_deleted = 1`, leaves every other
row and every other field unchanged, never removes a full-text mirror
row, and the deleted row is unreachable through `search`'s
non-deleted filter afterwards. -/
theorem soft_delete_frame (db : DB) (pre : String)
    (hN : (db.memories.map MemRow.id).Nodup) (hW : noWild pre) :
    (db.memories.find? (fun r => ciPre pre r.id && r.is_deleted == 0) = none →
      soft_delete db pre = db) ∧
    (∀ row, db.memories.find? (fun r => ciPre pre r.id && r.is_deleted == 0) = some row →
      ∃ l₁ l₂, db.memories = l₁ ++ row :: l₂ ∧
        (soft_delete db pre).memories = l₁ ++ setDeleted row :: l₂ ∧
        (soft_delete db pre).fts = db.fts ∧
        (∀ x ∈ l₁, (ciPre pre x.id && x.is_deleted == 0) = false) ∧
        ciPre pre row.id = true ∧ row.is_deleted = 0 ∧
        (∀ q : String, row.id ∉ (search (soft_delete db pre) q).map (fun t => t.1))) := by
  have hfind : db.memories.find? (fun r => likeMatch (pre ++ "%") r.id && r.is_deleted == 0) =
      db.memories.find? (fun r => ciPre pre r.id && r.is_deleted == 0) :=
    find?_congr _ _ (fun r => by rw [likeMatch_pct pre hW]) db.memories
  constructor
  · intro hnone
    rw [soft_delete, hfind, hnone]
  · intro row hrow
    rcases find?_split _ db.memories row hrow with ⟨l₁, l₂, hl, hall, hrowp⟩
    rcases band_true_split hrowp with ⟨hci, hdel⟩
    have hdel0 : row.is_deleted = 0 := by
      have := of_decide_eq_true hdel
      exact this
    have hidsplit : row.id ∉ l₁.map MemRow.id ∧ row.id ∉ l₂.map MemRow.id := by
      rw [hl] at hN
      rw [List.map_append, List.map_cons] at hN
      rcases List.nodup_append.mp hN with ⟨h1, h2, hdisj⟩
      refine ⟨fun hmem => hdisj hmem (by simp), ?_⟩
      rcases List.nodup_cons.mp h2 with ⟨hnotin, -⟩
      exact hnotin
    have hsd : soft_delete db pre =
        ⟨db.memories.map (fun r => if r.id = row.id then setDeleted r else r), db.fts⟩ := by
      rw [soft_delete, hfind, hrow]
    have hmemupd : (soft_delete db pre).memories = l₁ ++ setDeleted row :: l₂ := by
      rw [hsd]
      show db.memories.map (fun r => if r.id = row.id then setDeleted r else r) =
        l₁ ++ setDeleted row :: l₂
      rw [hl, List.map_append, List.map_cons, if_pos rfl]
      congr 1
      · conv_rhs => rw [← List.map_id l₁]
        refine List.map_congr_left (fun x hx => ?_)
        rw [if_neg (fun hxid => hidsplit.1 (by rw [← hxid]; exact List.mem_map_of_mem MemRow.id hx))]
        rfl
      · congr 1
        conv_rhs => rw [← List.map_id l₂]
        refine List.map_congr_left (fun x hx => ?_)
        rw [if_neg (fun hxid => hidsplit.2 (by rw [← hxid]; exact List.mem_map_of_mem MemRow.id hx))]
        rfl
    have hfts : (soft_delete db pre).fts = db.fts := by
      rw [hsd]
    refine ⟨l₁, l₂, hl, hmemupd, hfts, hall, hci, hdel0, ?_⟩
    intro q hmem
    rcases List.mem_map.mp hmem with ⟨t, ht, htid⟩
    rw [search] at ht
    rcases List.mem_map.mp ht with ⟨r, hr, hrt⟩
    rw [mem_sortByCreatedDesc] at hr
    rcases List.mem_filter.mp hr with ⟨hrmem, hrcond⟩
    rcases band_true_split hrcond with ⟨hrdel, -⟩
    have hrid : r.id = row.id := by
      rw [← htid, ← hrt]
    rw [hmemupd] at hrmem
    rcases List.mem_append.mp hrmem with hrmem | hrmem
    · exact hidsplit.1 (hrid ▸ List.mem_map_of_mem MemRow.id hrmem)
    · rcases List.mem_cons.mp hrmem with hrmem | hrmem
      · subst hrmem
        simp [setDeleted] at hrdel
      · exact hidsplit.2 (hrid ▸ List.mem_map_of_mem MemRow.id hrmem)

theorem soft_delete_frame_witness :
    ((oneRowDB.memories.map MemRow.id).Nodup ∧ noWild "mem") ∧
    ((oneRowDB.memories.find? (fun r => ciPre "mem" r.id && r.is_deleted == 0) = none →
        soft_delete oneRowDB "mem" = oneRowDB) ∧
     (∀ row, oneRowDB.memories.find? (fun r => ciPre "mem" r.id && r.is_deleted == 0) =
          some row →
        ∃ l₁ l₂, oneRowDB.memories = l₁ ++ row :: l₂ ∧
          (soft_delete oneRowDB "mem").memories = l₁ ++ setDeleted row :: l₂ ∧
          (soft_delete oneRowDB "mem").fts = oneRowDB.fts ∧
          (∀ x ∈ l₁, (ciPre "mem" x.id && x.is_deleted == 0) = false) ∧
          ciPre "mem" row.id = true ∧ row.is_deleted = 0 ∧
          (∀ q : String,
            row.id ∉ (search (soft_delete oneRowDB "mem") q).map (fun t => t.1)))) :=
  ⟨⟨by decide, by decide⟩, soft_delete_frame oneRowDB "mem" (by decide) (by decide)⟩

/-! ## C4: per-chunk insert failures -/

/-- Exact effect of the per-session chunk loop, for any pattern of store
errors: the primary table gains `expectedRows`, the mirror gains
`expectedFts`, and the imported count is `okCount`. -/
theorem importChunks_characterization
    (oracle : String → Nat → InsertOutcome) (now : Nat) (ids : Nat → String) (sn : String) :
    ∀ (cs : List (String × String)) (i : Nat) (db : DB) (acc ctr : Nat),
      (importChunksAux oracle now ids sn cs i db acc ctr).1.memories =
        db.memories ++ expectedRows oracle now ids sn cs i ctr ∧
      (importChunksAux oracle now ids sn cs i db acc ctr).1.fts =
        db.fts ++ expectedFts oracle ids sn cs i ctr ∧
      (importChunksAux oracle now ids sn cs i db acc ctr).2.1 =
        acc + okCount oracle sn cs i ∧
      (importChunksAux oracle now ids sn cs i db acc ctr).2.2 = ctr + cs.length
  | [], i, db, acc, ctr => by
    simp [importChunksAux, expectedRows, expectedFts, okCount]
  | (c, sm) :: rest, i, db, acc, ctr => by
    cases ho : oracle sn i with
    | ok =>
      have ih := importChunks_characterization oracle now ids sn rest (i + 1)
        ⟨db.memories ++ [mkMemRow (ids ctr) now c sm sn i],
         db.fts ++ [⟨ids ctr, c, sm⟩]⟩ (acc + 1) (ctr + 1)
      simp only [importChunksAux, import_chunk, ho, expectedRows, expectedFts, okCount,
        reduceIte, reduceCtorEq, Bool.false_eq_true, if_false, if_true,
        List.length_cons, List.nil_append, List.append_assoc] at ih ⊢
      refine ⟨by rw [ih.1], by rw [ih.2.1], by rw [ih.2.2.1]; omega, by rw [ih.2.2.2]; omega⟩
    | failPrimary =>
      have ih := importChunks_characterization oracle now ids sn rest (i + 1) db acc (ctr + 1)
      simp only [importChunksAux, import_chunk, ho, expectedRows, expectedFts, okCount,
        reduceIte, reduceCtorEq, Bool.false_eq_true, if_false, if_true,
        List.length_cons, List.nil_append, List.append_assoc] at ih ⊢
      refine ⟨by rw [ih.1], by rw [ih.2.1], by rw [ih.2.2.1]; omega, by rw [ih.2.2.2]; omega⟩
    | failFts =>
      have ih := importChunks_characterization oracle now ids sn rest (i + 1)
        ⟨db.memories ++ [mkMemRow (ids ctr) now c sm sn i], db.fts⟩ acc (ctr + 1)
      simp only [importChunksAux, import_chunk, ho, expectedRows, expectedFts, okCount,
        reduceIte, reduceCtorEq, Bool.false_eq_true, if_false, if_true,
        List.length_cons, List.nil_append, List.append_assoc] at ih ⊢
      refine ⟨by rw [ih.1], by rw [ih.2.1], by rw [ih.2.2.1]; omega, by rw [ih.2.2.2]; omega⟩

/-- C4 (amended: an insert error is caught, the chunk is counted as not
persisted and processing continues, but the store is not unwound for the
chunk — a primary-insert failure leaves no row, while a mirror-insert
failure leaves the primary row in place with no incremental mirror row
until the end-of-run rebuild): the chunk loop is total and its result is
exactly characterised — the primary table gains `expectedRows` (one row
per chunk whose primary insert did not raise), the mirror gains
`expectedFts` (one row per fully successful chunk), and the imported
count is `okCount` (failures of either kind are not counted; chunks
after a failure are still processed and counted). -/
theorem import_chunk_failure_handling
    (oracle : String → Nat → InsertOutcome) (now : Nat) (ids : Nat → String) (sn : String)
    (cs : List (String × String)) (i : Nat) (db : DB) (acc ctr : Nat) :
    (importChunksAux oracle now ids sn cs i db acc ctr).1.memories =
      db.memories ++ expectedRows oracle now ids sn cs i ctr ∧
    (importChunksAux oracle now ids sn cs i db acc ctr).1.fts =
      db.fts ++ expectedFts oracle ids sn cs i ctr ∧
    (importChunksAux oracle now ids sn cs i db acc ctr).2.1 =
      acc + okCount oracle sn cs i ∧
    (importChunksAux oracle now ids sn cs i db acc ctr).2.2 = ctr + cs.length :=
  importChunks_characterization oracle now ids sn cs i db acc ctr

/-- C4 counterexample: in a run whose full-text inserts all raise, the
single chunk is counted as a failure (`imported = 0`) — but after the
run, its primary row is in the store and the end-of-run rebuild has
recreated its mirror row, contradicting "neither the primary row nor the
full-text mirror row survives the run". -/
theorem import_chunk_failure_counterexample :
    (runImport ftsFailOracle 7 seqIds oneSession ⟨[], []⟩).imported = 0 ∧
    (runImport ftsFailOracle 7 seqIds oneSession ⟨[], []⟩).db.memories.map
      (fun r => r.metaFilename) = ["proj_sess0001"] ∧
    (runImport ftsFailOracle 7 seqIds oneSession ⟨[], []⟩).db.fts.length = 1 := by
  refine ⟨by decide, by decide, by decide⟩

/-! ## C3: idempotence of the run -/

theorem isPrefixOf_refl (l : List Char) : l.isPrefixOf l = true := by
  induction l with
  | nil => rfl
  | cons c cs ih =>
    show (c == c && cs.isPrefixOf cs) = true
    rw [beq_self_eq_true, ih]
    rfl

theorem containsSub_refl (s : String) : containsSub s s = true := by
  rw [containsSub]
  cases hs : s.data with
  | nil => rfl
  | cons c rest =>
    rw [infixScan, isPrefixOf_refl, Bool.true_or]

theorem jsonEsc_claude : jsonEsc "claude-session" = "claude-session" := by decide

/-- The metadata written by `import_chunk` matches
`LIKE '%claude-session%'` for every filename and index. -/
theorem metadata_like (fn : String) (idx : Nat) :
    likeMatch "%claude-session%" (metadataStr "claude-session" fn idx) = true := by
  have hpat : ("%" ++ "claude-session" ++ "%") = "%claude-session%" := by decide
  rw [← hpat]
  refine likeMatch_of_infix "claude-session" _ (by decide) metaA.data
    ((metaB ++ jsonEsc fn ++ metaC ++ toString idx ++ "\x7d").data) ?_
  rw [metadataStr, jsonEsc_claude]
  simp [sdata_append, List.append_assoc]

/-- Membership in `get_existing_sources` only grows when rows are
appended. -/
theorem mem_sources_mono (db db' : DB) (t : List MemRow)
    (h : db'.memories = db.memories ++ t) (x : String)
    (hx : x ∈ get_existing_sources db) : x ∈ get_existing_sources db' := by
  rw [get_existing_sources] at hx ⊢
  rcases List.mem_map.mp hx with ⟨r, hr, hrx⟩
  rcases List.mem_filter.mp hr with ⟨hrmem, hrcond⟩
  refine List.mem_map.mpr ⟨r, List.mem_filter.mpr ⟨?_, hrcond⟩, hrx⟩
  rw [h]
  exact List.mem_append_left t hrmem

/-- A row written by `import_chunk` puts its filename into
`get_existing_sources`. -/
theorem mkMemRow_source (db : DB) (t1 t2 : List MemRow) (mid : String) (now : Nat)
    (c sm sn : String) (idx : Nat)
    (h : db.memories = t1 ++ mkMemRow mid now c sm sn idx :: t2) :
    sn ∈ get_existing_sources db := by
  rw [get_existing_sources]
  refine List.mem_map.mpr ⟨mkMemRow mid now c sm sn idx, List.mem_filter.mpr ⟨?_, ?_⟩, rfl⟩
  · rw [h]
    exact List.mem_append_right t1 (List.mem_cons_self _ t2)
  · rw [show (mkMemRow mid now c sm sn idx).metaSource = "claude-session" from rfl,
      show (mkMemRow mid now c sm sn idx).metaFilename = sn from rfl,
      show (mkMemRow mid now c sm sn idx).metaChunk = idx from rfl,
      show (mkMemRow mid now c sm sn idx).is_deleted = 0 from rfl,
      metadata_like sn idx]
    rfl

/-- The session loop only appends to the primary table. -/
theorem runSessions_memories (oracle : String → Nat → InsertOutcome) (now : Nat)
    (ids : Nat → String) (existing : List String) :
    ∀ (sessions : List Session) (st : RunState),
      ∃ t, (runSessionsAux oracle now ids existing sessions st).db.memories =
        st.db.memories ++ t
  | [], st => ⟨[], by simp [runSessionsAux]⟩
  | s :: rest, st => by
    rw [runSessionsAux]
    by_cases h1 : existing.any (fun e => containsSub (s.project ++ "_" ++ s.stem) e)
    · rw [if_pos h1]
      exact runSessions_memories oracle now ids existing rest _
    · rw [if_neg h1]
      by_cases h2 : s.messages.length < 5
      · rw [if_pos h2]
        exact runSessions_memories oracle now ids existing rest _
      · rw [if_neg h2]
        by_cases h3 : (chunk_session s.messages s.project (pyTake s.stem 8)).isEmpty
        · rw [if_pos h3]
          exact runSessions_memories oracle now ids existing rest _
        · rw [if_neg h3]
          rcases runSessions_memories oracle now ids existing rest
            ⟨(importChunksAux oracle now ids (s.project ++ "_" ++ s.stem)
                (chunk_session s.messages s.project (pyTake s.stem 8)) 0 st.db 0 st.ctr).1,
             st.imported + (importChunksAux oracle now ids (s.project ++ "_" ++ s.stem)
                (chunk_session s.messages s.project (pyTake s.stem 8)) 0 st.db 0 st.ctr).2.1,
             st.skipped,
             (importChunksAux oracle now ids (s.project ++ "_" ++ s.stem)
                (chunk_session s.messages s.project (pyTake s.stem 8)) 0 st.db 0 st.ctr).2.2⟩
            with ⟨t, ht⟩
          refine ⟨expectedRows oracle now ids (s.project ++ "_" ++ s.stem)
              (chunk_session s.messages s.project (pyTake s.stem 8)) 0 st.ctr ++ t, ?_⟩
          rw [ht]
          rw [(importChunks_characterization oracle now ids _ _ 0 st.db 0 st.ctr).1]
          rw [List.append_assoc]

/-- If every session will be skipped, the loop changes nothing. -/
theorem runSessions_all_skip (oracle : String → Nat → InsertOutcome) (now : Nat)
    (ids : Nat → String) (existing : List String) :
    ∀ (sessions : List Session) (st : RunState),
      (∀ s ∈ sessions, willSkip existing s) →
      (runSessionsAux oracle now ids existing sessions st).db = st.db ∧
      (runSessionsAux oracle now ids existing sessions st).imported = st.imported
  | [], st, _ => ⟨rfl, rfl⟩
  | s :: rest, st, h => by
    have hs := h s (by simp)
    have hrest : ∀ x ∈ rest, willSkip existing x := fun x hx => h x (by simp [hx])
    rw [runSessionsAux]
    by_cases h1 : existing.any (fun e => containsSub (s.project ++ "_" ++ s.stem) e)
    · rw [if_pos h1]
      exact runSessions_all_skip oracle now ids existing rest _ hrest
    · rw [if_neg h1]
      by_cases h2 : s.messages.length < 5
      · rw [if_pos h2]
        exact runSessions_all_skip oracle now ids existing rest _ hrest
      · rw [if_neg h2]
        have h3 : (chunk_session s.messages s.project (pyTake s.stem 8)).isEmpty = true := by
          rcases hs with hs | hs | hs
          · exact absurd hs h1
          · exact absurd hs h2
          · exact hs
        rw [if_pos h3]
        exact runSessions_all_skip oracle now ids existing rest _ hrest

/-- After a failure-free run, every session of the source set satisfies a
skip condition against the sources then present in the store. -/
theorem runSessions_skips_after (now : Nat) (ids : Nat → String) (existing : List String) :
    ∀ (sessions : List Session) (st : RunState),
      (∀ x ∈ existing, x ∈ get_existing_sources st.db) →
      ∀ s ∈ sessions,
        willSkip (get_existing_sources
          (runSessionsAux okOracle now ids existing sessions st).db) s
  | [], _, _, s, hs => by simp at hs
  | s0 :: rest, st, hsub, s, hs => by
    rw [runSessionsAux]
    by_cases h1 : existing.any (fun e => containsSub (s0.project ++ "_" ++ s0.stem) e)
    · rw [if_pos h1]
      rcases List.mem_cons.mp hs with hseq | hsmem
      · subst hseq
        rcases List.any_eq_true.mp h1 with ⟨e, he, hce⟩
        refine Or.inl (List.any_eq_true.mpr ⟨e, ?_, hce⟩)
        rcases runSessions_memories okOracle now ids existing rest _ with ⟨t, ht⟩
        exact mem_sources_mono _ _ t ht e (hsub e he)
      · exact runSessions_skips_after now ids existing rest
          ⟨st.db, st.imported, st.skipped + 1, st.ctr⟩ hsub s hsmem
    · rw [if_neg h1]
      by_cases h2 : s0.messages.length < 5
      · rw [if_pos h2]
        rcases List.mem_cons.mp hs with hseq | hsmem
        · subst hseq
          exact Or.inr (Or.inl h2)
        · exact runSessions_skips_after now ids existing rest
            ⟨st.db, st.imported, st.skipped + 1, st.ctr⟩ hsub s hsmem
      · rw [if_neg h2]
        by_cases h3 : (chunk_session s0.messages s0.project (pyTake s0.stem 8)).isEmpty
        · rw [if_pos h3]
          rcases List.mem_cons.mp hs with hseq | hsmem
          · subst hseq
            exact Or.inr (Or.inr h3)
          · exact runSessions_skips_after now ids existing rest
              ⟨st.db, st.imported, st.skipped + 1, st.ctr⟩ hsub s hsmem
        · rw [if_neg h3]
          set sn := s0.project ++ "_" ++ s0.stem with hsn
          set chunks := chunk_session s0.messages s0.project (pyTake s0.stem 8) with hchunks
          have hchar := (importChunks_characterization okOracle now ids sn chunks 0 st.db
            0 st.ctr).1
          have hsn_in : sn ∈ get_existing_sources
              (importChunksAux okOracle now ids sn chunks 0 st.db 0 st.ctr).1 := by
            cases hcs : chunks with
            | nil => rw [hcs] at h3; exact absurd rfl h3
            | cons c0 crest =>
              rw [hcs] at hchar
              rw [expectedRows] at hchar
              refine mkMemRow_source _ st.db.memories
                (expectedRows okOracle now ids sn crest 1 (st.ctr + 1))
                (ids st.ctr) now c0.1 c0.2 sn 0 ?_
              rw [hchar]
              rw [show okOracle sn 0 = InsertOutcome.ok from rfl]
              simp
          rcases List.mem_cons.mp hs with hseq | hsmem
          · subst hseq
            refine Or.inl (List.any_eq_true.mpr ⟨sn, ?_, containsSub_refl sn⟩)
            rcases runSessions_memories okOracle now ids existing rest _ with ⟨t, ht⟩
            exact mem_sources_mono _ _ t ht sn hsn_in
          · refine runSessions_skips_after now ids existing rest
              ⟨(importChunksAux okOracle now ids sn chunks 0 st.db 0 st.ctr).1,
               st.imported +
                 (importChunksAux okOracle now ids sn chunks 0 st.db 0 st.ctr).2.1,
               st.skipped,
               (importChunksAux okOracle now ids sn chunks 0 st.db 0 st.ctr).2.2⟩ ?_ s hsmem
            intro x hx
            have hx1 := hsub x hx
            rcases (importChunks_characterization okOracle now ids sn chunks 0 st.db
              0 st.ctr) with ⟨hm, -, -, -⟩
            exact mem_sources_mono st.db _ _ hm x hx1

theorem sources_rebuild (db : DB) :
    get_existing_sources (rebuild_fts db) = get_existing_sources db := rfl

theorem rebuild_rebuild (db : DB) : rebuild_fts (rebuild_fts db) = rebuild_fts db := rfl

/-- C3: re-running the import over an unchanged source set (with a store
that raises no errors) imports zero new chunks and leaves the store —
hence the total imported-chunk count — exactly as after the first run:
each imported session's `project_stem` identity is a substring of a
persisted metadata filename and is skipped. -/
theorem runImport_idempotent (now1 now2 : Nat) (ids1 ids2 : Nat → String)
    (sessions : List Session) (db : DB) :
    (runImport okOracle now2 ids2 sessions
        (runImport okOracle now1 ids1 sessions db).db).imported = 0 ∧
    (runImport okOracle now2 ids2 sessions
        (runImport okOracle now1 ids1 sessions db).db).db =
      (runImport okOracle now1 ids1 sessions db).db := by
  have hskips := runSessions_skips_after now1 ids1 (get_existing_sources db) sessions
    ⟨db, 0, 0, 0⟩ (fun x hx => hx)
  have hall : ∀ s ∈ sessions,
      willSkip (get_existing_sources (runImport okOracle now1 ids1 sessions db).db) s :=
    hskips
  have hskip2 := runSessions_all_skip okOracle now2 ids2
    (get_existing_sources (runImport okOracle now1 ids1 sessions db).db) sessions
    ⟨(runImport okOracle now1 ids1 sessions db).db, 0, 0, 0⟩ hall
  refine ⟨hskip2.2, ?_⟩
  show rebuild_fts (runSessionsAux okOracle now2 ids2
      (get_existing_sources (runImport okOracle now1 ids1 sessions db).db) sessions
      ⟨(runImport okOracle now1 ids1 sessions db).db, 0, 0, 0⟩).db =
    (runImport okOracle now1 ids1 sessions db).db
  rw [hskip2.1]
  exact rebuild_rebuild
    (runSessionsAux okOracle now1 ids1 (get_existing_sources db) sessions ⟨db, 0, 0, 0⟩).db

end MemTools
